import Mathlib

/-!
Verification of the `electricitypricelevels` Home Assistant integration.

This file shallowly embeds the three core subsystems of the repository:

* the tariff & ranking engine
  (`custom_components/electricitypricelevels/sensor/electricity_price_level_sensor.py`),
* the pattern compaction encoder (`custom_components/electricitypricelevels/util.py`
  and `sensor/compactlevels.py`, with the identical chunk logic of `services.py`),
* the acquisition scheduler (`sensor/nordpool_coordinator.py`).

Modelling conventions:

* Instants are microseconds since an arbitrary epoch, as `ℤ`; Python's
  `timedelta(microseconds=1)` is the integer `1`.  Python's floor division `//`
  used for calendar grouping is `Int.fdiv`.
* Prices are exact rationals `ℚ`.  Python's `round(x, 5)` float rounding is
  modelled as exact rounding to 5 decimals (`round5`); the tie-breaking mode
  (`round` rounds half up here, CPython rounds half to even on binary floats)
  differs only on exact ties, which the claims' 1e-5 tolerances absorb.
* Python string levels ("Low", "Medium", "High", "Unknown", ...) stay `String`s.
* Python `None`/exception outcomes become `Option`; the `"N/A"` rank sentinel is
  `Option.none`.
-/

namespace EPL

/-! ### Data model: raw and parsed price entries, rate records -/

/-- A raw provider price entry (`RawPriceEntry`): half-open interval
`[start, endTime)` in microseconds, price in currency per MWh. -/
structure RawEntry where
  start : ℤ
  endTime : ℤ
  price : ℚ
  deriving DecidableEq, Repr

/-- An element of `processed_for_ranking` in `async_update_data`: local start,
local end already shifted by `- timedelta(microseconds=1)`, and the
MWh→kWh-normalised spot price (`value`). -/
structure PriceEntry where
  start : ℤ
  endTime : ℤ
  value : ℚ
  deriving DecidableEq, Repr

/-- One element of the sensor's `self._rates` list. `rank = none` models the
`"N/A"` sentinel string. -/
structure RateRecord where
  start : ℤ
  endTime : ℤ
  spot_price : ℚ
  cost : ℚ
  credit : ℚ
  level : String
  rank : Option ℕ
  deriving DecidableEq, Repr

/-- The immutable fee configuration read from the config entry options in
`ElectricityPriceLevelSensor.__init__`.  Percentage fields are whole-number
percentages, divided by 100 at use, exactly as in the source. -/
structure FeeConfig where
  supplier_fixed_fee : ℚ
  supplier_variable_fee : ℚ
  supplier_fixed_credit : ℚ
  supplier_variable_credit : ℚ
  grid_fixed_fee : ℚ
  grid_variable_fee : ℚ
  grid_fixed_credit : ℚ
  grid_variable_credit : ℚ
  grid_energy_tax : ℚ
  electricity_vat : ℚ
  low_threshold : ℚ
  high_threshold : ℚ
  deriving DecidableEq, Repr

/-- Exact model of Python `round(x, 5)` (up to tie-breaking mode): round
`x * 10^5` to the nearest integer and scale back. -/
def round5 (q : ℚ) : ℚ := (round (q * 100000) : ℤ) / 100000

/-- Embedding of `ElectricityPriceLevelSensor.calculate_cost_and_credit`
(electricity_price_level_sensor.py, lines 470-510), keeping the source's
intermediate `cost_before_vat`. -/
def calculate_cost_and_credit (cfg : FeeConfig) (spot_price_main_unit_kwh : ℚ) : ℚ × ℚ :=
  let supplier_variable_fee_pct := cfg.supplier_variable_fee / 100
  let supplier_variable_credit_pct := cfg.supplier_variable_credit / 100
  let grid_variable_fee_pct := cfg.grid_variable_fee / 100
  let grid_variable_credit_pct := cfg.grid_variable_credit / 100
  let electricity_vat_pct := cfg.electricity_vat / 100
  let cost_before_vat :=
    spot_price_main_unit_kwh * (1 + supplier_variable_fee_pct + grid_variable_fee_pct) +
      cfg.supplier_fixed_fee + cfg.grid_fixed_fee + cfg.grid_energy_tax
  let cost := cost_before_vat * (1 + electricity_vat_pct)
  let credit :=
    spot_price_main_unit_kwh * (1 + supplier_variable_credit_pct + grid_variable_credit_pct) +
      cfg.supplier_fixed_credit + cfg.grid_fixed_credit
  (round5 cost, round5 credit)

/-- The cost formula exactly as the specification words it (spec §4.2 step 2):
`(spot*(1 + supplier_variable_fee% + grid_variable_fee%) + supplier_fixed_fee +
grid_fixed_fee + energy_tax) * (1 + VAT%)`, rounded to 5 decimals. -/
def costSpec (cfg : FeeConfig) (spot : ℚ) : ℚ :=
  round5 ((spot * (1 + cfg.supplier_variable_fee / 100 + cfg.grid_variable_fee / 100) +
    cfg.supplier_fixed_fee + cfg.grid_fixed_fee + cfg.grid_energy_tax) *
    (1 + cfg.electricity_vat / 100))

/-- The credit formula exactly as the specification words it (spec §4.2 step 3):
`spot*(1 + supplier_variable_credit% + grid_variable_credit%) +
supplier_fixed_credit + grid_fixed_credit`, rounded to 5 decimals; no tax or
VAT term. -/
def creditSpec (cfg : FeeConfig) (spot : ℚ) : ℚ :=
  round5 (spot * (1 + cfg.supplier_variable_credit / 100 + cfg.grid_variable_credit / 100) +
    cfg.supplier_fixed_credit + cfg.grid_fixed_credit)

/-- Embedding of `ElectricityPriceLevelSensor.calculate_level`
(electricity_price_level_sensor.py, lines 512-534). -/
def calculate_level (cfg : FeeConfig) (cost : ℚ) : String :=
  if cost < cfg.low_threshold then "Low"
  else if cost > cfg.high_threshold then "High"
  else "Medium"

/-- The example fee configuration of spec §8 (thresholds are irrelevant to the
cost/credit computation and left at the spec defaults 0.10/0.20). -/
def exampleCfg : FeeConfig :=
  { supplier_fixed_fee := 1/100
    supplier_variable_fee := 1
    supplier_fixed_credit := 5/1000
    supplier_variable_credit := 1/2
    grid_fixed_fee := 2/100
    grid_variable_fee := 2
    grid_fixed_credit := 2/1000
    grid_variable_credit := 1/5
    grid_energy_tax := 3/100
    electricity_vat := 25
    low_threshold := 1/10
    high_threshold := 1/5 }

/-! ### Compact levels chunk encoder (`compactlevels.py` / `services.py`) -/

/-- The chunking loop `for i in range(0, len(levels), level_length)` of
`calculate_levels` (compactlevels.py, lines 196-197) as a recursion on
take/drop.  For `n = 0` the Python loop never terminates; the source guards the
loop with `level_length > 0`, mirrored here by returning `[]`. -/
def chunkList (n : ℕ) (l : List ℚ) : List (List ℚ) :=
  if h : n = 0 ∨ l = [] then []
  else l.take n :: chunkList n (l.drop n)
termination_by l.length
decreasing_by
  push_neg at h
  obtain ⟨hn, hl⟩ := h
  have h1 : 0 < n := Nat.pos_of_ne_zero hn
  have h2 : 0 < l.length := List.length_pos.mpr hl
  simpa using Nat.sub_lt h2 h1

/-- Per-chunk classification of `calculate_levels` (compactlevels.py, lines
198-203) and of the `get_levels` service (services.py, lines 79-84):
`"L"` if all costs are `<= low_threshold`, else `"M"` if all costs are
`< high_threshold`, else `"H"`. -/
def encodeChunk (low high : ℚ) (chunk : List ℚ) : Char :=
  if chunk.all (fun val => val ≤ low) then 'L'
  else if chunk.all (fun val => val < high) then 'M'
  else 'H'

/-- The levels-string construction shared verbatim between
`calculate_levels` (compactlevels.py, lines 194-203) and `get_levels`
(services.py, lines 76-84): split the per-minute cost list into chunks of
`level_length` and encode each chunk. -/
def calculate_levels (low high : ℚ) (level_length : ℕ) (levels : List ℚ) : List Char :=
  (chunkList level_length levels).map (encodeChunk low high)

/-- The per-minute cost expansion feeding `calculate_levels`: each rate
contributes `ceil((end - start) seconds / 60)` copies of its cost
(compactlevels.py, lines 185-192).  `end - start` is in microseconds here. -/
def expandCosts (rates : List RateRecord) : List ℚ :=
  rates.flatMap fun rate =>
    List.replicate (⌈((rate.endTime - rate.start : ℚ) / 60000000)⌉.toNat) rate.cost

/-- A fee configuration carrying only the two thresholds (all fees zero), used
to compare the two boundary policies in C10. -/
def thresholdOnlyCfg (low high : ℚ) : FeeConfig :=
  { supplier_fixed_fee := 0, supplier_variable_fee := 0, supplier_fixed_credit := 0
    supplier_variable_credit := 0, grid_fixed_fee := 0, grid_variable_fee := 0
    grid_fixed_credit := 0, grid_variable_credit := 0, grid_energy_tax := 0
    electricity_vat := 0, low_threshold := low, high_threshold := high }

/-! ### Pattern compaction encoder (`util.py`, `generate_level_pattern`) -/

/-- `step_in_minutes = 12` in microseconds. -/
def stepMicros : ℤ := 12 * 60 * 1000000

/-- `pattern_length_in_hours = 36` in microseconds. -/
def windowMicros : ℤ := 36 * 60 * 60 * 1000000

/-- One iteration of the inner `for rate in rates` loop of
`generate_level_pattern` (util.py, lines 33-50): a rate contributes iff
`current_start >= rate.start and current_end <= rate.end`, with weights
Low→1, Medium→2, High→3 added to `level_sum` and `level_count` incremented;
any other level is ignored. -/
def stepAccum (currentStart currentEnd : ℤ) (acc : ℕ × ℕ) (rate : RateRecord) : ℕ × ℕ :=
  if currentStart ≥ rate.start ∧ currentEnd ≤ rate.endTime then
    if rate.level = "Low" then (acc.1 + 1, acc.2 + 1)
    else if rate.level = "Medium" then (acc.1 + 2, acc.2 + 1)
    else if rate.level = "High" then (acc.1 + 3, acc.2 + 1)
    else acc
  else acc

/-- The accumulated `(level_sum, level_count)` of one grid step (util.py,
lines 31-50). -/
def stepWeights (rates : List RateRecord) (currentStart currentEnd : ℤ) : ℕ × ℕ :=
  rates.foldl (stepAccum currentStart currentEnd) (0, 0)

/-- The per-step classification of `generate_level_pattern` (util.py, lines
52-59): `'U'` when nothing contributed, otherwise threshold the arithmetic
mean of the contributed weights. -/
def stepChar (rates : List RateRecord) (currentStart currentEnd : ℤ) : Char :=
  let w := stepWeights rates currentStart currentEnd
  if w.2 > 0 then
    let average_level : ℚ := (w.1 : ℚ) / (w.2 : ℚ)
    if average_level > 2 then 'H'
    else if average_level > 1 then 'M'
    else 'L'
  else 'U'

/-- The `while current_end <= end_time` loop of `generate_level_pattern`
(util.py, lines 25-64); `current_end = current_start + 12 min - 1 µs` as in
line 23, both advanced by one step per iteration. -/
def genLoop (rates : List RateRecord) (endTime currentStart : ℤ) : List Char :=
  if currentStart + stepMicros - 1 ≤ endTime then
    stepChar rates currentStart (currentStart + stepMicros - 1) ::
      genLoop rates endTime (currentStart + stepMicros)
  else []
termination_by (endTime + 1 - currentStart).toNat
decreasing_by
  simp only [stepMicros] at *
  omega

/-- Embedding of `generate_level_pattern` (util.py, lines 10-67), producing
the pattern as a list of characters.  The `rates is None` guard and the
string-to-datetime coercions of the source are identities here. -/
def generate_level_pattern (rates : List RateRecord) : List Char :=
  match rates with
  | [] => List.replicate (36 * 60 / 12) 'U'
  | r :: _ => genLoop rates (r.start + windowMicros) r.start

/-- Spec-side description of the contributing intervals of one grid step
(spec §4.3 step 1): the input intervals that fully contain the step and carry
a recognised level. -/
def contributing (rates : List RateRecord) (currentStart currentEnd : ℤ) : List RateRecord :=
  rates.filter fun rate =>
    decide ((currentStart ≥ rate.start ∧ currentEnd ≤ rate.endTime) ∧
      (rate.level = "Low" ∨ rate.level = "Medium" ∨ rate.level = "High"))

/-- Spec-side numeric weight of a recognised level (spec §4.3 step 1). -/
def levelWeight (lv : String) : ℕ :=
  if lv = "Low" then 1 else if lv = "Medium" then 2 else 3

/-! ### Tariff & ranking engine pipeline (`async_update_data` / `_process_entry`) -/

/-- Microseconds per local calendar day. -/
def microsPerDay : ℤ := 86400000000

/-- The local calendar date (day number) of an instant; Python's floor
division semantics (`Int.fdiv`). -/
def dateOf (t : ℤ) : ℤ := Int.fdiv t microsPerDay

/-- The parse step of `async_update_data` (electricity_price_level_sensor.py,
lines 354-370): localise the timestamps (an identity on instants here),
subtract `timedelta(microseconds=1)` from the end, and normalise the MWh
price to kWh (`price_mwh / 1000.0`). -/
def parseEntry (e : RawEntry) : PriceEntry :=
  { start := e.start, endTime := e.endTime - 1, value := e.price / 1000 }

/-- `sorted(day_entries, key=lambda x: x["value"])` (line 380): Python's
`sorted` is the stable ascending sort, embedded as `List.insertionSort` with
the non-strict value comparison — the standard stable ascending sort (a new
element is inserted after all earlier equal-valued ones), structurally
recursive so that concrete inputs evaluate. -/
def sortByValue (g : List PriceEntry) : List PriceEntry :=
  List.insertionSort (fun a b => a.value ≤ b.value) g

/-- The rank computation of `_process_entry` (lines 440-458): scan the day's
ranked list for the first entry matching `(start, value)`.  `none` models the
`"N/A"` sentinel: the empty group (`num_entries_today == 0`) or a failed scan
(`StopIteration`). -/
def rankOf (e : PriceEntry) (daily_ranked_list : List PriceEntry) : Option ℕ :=
  if daily_ranked_list.length = 0 then none
  else
    match daily_ranked_list.findIdx?
        (fun x => decide (x.start = e.start ∧ x.value = e.value)) with
    | none => none
    | some i =>
        if daily_ranked_list.length = 1 then some 1
        else some (i * 99 / (daily_ranked_list.length - 1) + 1)

/-- `_process_entry` (lines 414-468): build the rate record of one entry.  It
is a total function — the record is produced and appended for every entry,
with rank `none` in the `"N/A"` cases. -/
def process_entry (cfg : FeeConfig) (e : PriceEntry)
    (daily_ranked_list : List PriceEntry) : RateRecord :=
  let cc := calculate_cost_and_credit cfg e.value
  { start := e.start, endTime := e.endTime, spot_price := e.value,
    cost := cc.1, credit := cc.2, level := calculate_level cfg cc.1,
    rank := rankOf e daily_ranked_list }

/-- The per-day loop of `async_update_data` (lines 379-382): every entry of a
day's group is processed against the group's value-sorted copy. -/
def processDay (cfg : FeeConfig) (day_entries : List PriceEntry) : List RateRecord :=
  day_entries.map (fun e => process_entry cfg e (sortByValue day_entries))

/-- The `entries_by_day` grouping (lines 372-377): one group per distinct
local date of `start`, each group keeping the entries' original order. -/
def groupsByDay (parsed : List PriceEntry) : List (List PriceEntry) :=
  ((parsed.map (fun e => dateOf e.start)).dedup).map
    (fun d => parsed.filter (fun e => decide (dateOf e.start = d)))

/-- The full rate construction of `async_update_data` (lines 347-384): parse,
group by day, rank and cost each group, then sort all records by start. -/
def ratesOf (cfg : FeeConfig) (raw : List RawEntry) : List RateRecord :=
  let parsed := raw.map parseEntry
  List.insertionSort (fun a b => a.start ≤ b.start)
    (((groupsByDay parsed).map (processDay cfg)).flatten)

/-- A stored record's closed interval `[start, endTime]` contains the
instant; the current-rate lookup of
`_update_sensor_state_from_current_rate` (line 288) tests
`rate["start"] <= now < rate["end"]`, which is contained in this closed
predicate because the stored `endTime` is already the raw end minus 1 µs. -/
def containsInstant (r : RateRecord) (t : ℤ) : Prop :=
  r.start ≤ t ∧ t ≤ r.endTime

/-- The raw curve is a chain of contiguous half-open intervals of positive
length: each entry ends exactly where the next starts. -/
def contiguousRaw (raw : List RawEntry) : Prop :=
  (∀ e ∈ raw, e.start < e.endTime) ∧
  List.Chain' (fun a b => a.endTime = b.start) raw

instance (r : RateRecord) (t : ℤ) : Decidable (containsInstant r t) :=
  inferInstanceAs (Decidable (r.start ≤ t ∧ t ≤ r.endTime))

/-- A two-entry contiguous raw curve (one hour each) used to instantiate the
interval-disjointness theorem. -/
def rawCurve2 : List RawEntry :=
  [{ start := 0, endTime := 3600000000, price := 100 },
   { start := 3600000000, endTime := 7200000000, price := 50 }]

/-- The 101-entry day group used to refute C8 as stated: distinct starts
0..100, values 0..100. -/
def bigGroup : List PriceEntry :=
  (List.range 101).map
    (fun k : ℕ => { start := (k : ℤ), endTime := (k : ℤ) + 1, value := (k : ℚ) })

/-- A small three-entry day group (distinct starts, shuffled values) used to
instantiate the ranking theorems. -/
def g3 : List PriceEntry :=
  [{ start := 0, endTime := 10, value := 30 },
   { start := 20, endTime := 30, value := 10 },
   { start := 40, endTime := 50, value := 20 }]

/-! ### Acquisition scheduler (`nordpool_coordinator.py`) -/

/-- The payload assembled by `_execute_nordpool_call_logic` on `SUCCESS_DATA`
(lines 80-84); `currency` stays `none` when the currency entity lookup found
nothing. -/
structure NordpoolPayload where
  currency : Option String
  raw : List RawEntry
  deriving DecidableEq, Repr

/-- The classified outcome of one provider call (lines 29-104). -/
inductive FetchStatus where
  | successData (payload : NordpoolPayload)
  | successNoData
  | errorServiceNotReady
  | errorBadResponseStructure
  | errorOther
  deriving DecidableEq, Repr

/-- The coordinator's cached data state: shared `currency`, the current-day
slot with its date, and the next-day slot with its date (lines 22-27).
Dates are local day numbers. -/
structure CoordState where
  currency : Option String
  dataCur : Option (List RawEntry)
  dateCur : Option ℤ
  dataNext : Option (List RawEntry)
  dateNext : Option ℤ
  deriving DecidableEq, Repr

/-- Python truthiness of an optional list: `None` and `[]` are falsy. -/
def dataTruthy : Option (List RawEntry) → Bool
  | none => false
  | some l => !l.isEmpty

/-- Step 1 of `_trigger_and_reschedule_nordpool` (lines 152-167): the
midnight rollover, moving the next-day slot into the current slot when the
cached current date is older than today.  Currency is untouched. -/
def rollover (s : CoordState) (today : ℤ) : CoordState :=
  match s.dateCur with
  | some d =>
      if d < today then
        { s with dataCur := s.dataNext, dateCur := s.dateNext,
                 dataNext := none, dateNext := none }
      else s
  | none => s

/-- The fetch operation type of step 2 (`"TODAY"` / `"TOMORROW"`). -/
inductive FetchOp where
  | opToday
  | opTomorrow
  deriving DecidableEq, Repr

/-- Step 2 of `_trigger_and_reschedule_nordpool` (lines 169-184): choose the
target fetch date, the current-day gap first. -/
def decideTarget (s : CoordState) (today : ℤ) : Option (ℤ × FetchOp) :=
  if ¬ dataTruthy s.dataCur ∨ s.dateCur ≠ some today then
    some (today, FetchOp.opToday)
  else if s.dateCur = some today ∧
      (¬ dataTruthy s.dataNext ∨ s.dateNext ≠ some (today + 1)) then
    some (today + 1, FetchOp.opTomorrow)
  else none

/-- The fetch-handling of step 3 (lines 191-208): on `SUCCESS_DATA` store the
payload in the slot selected by the operation and overwrite `currency` only
when the response supplied one; every other status changes nothing. -/
def applyFetchResult (s : CoordState) (op : FetchOp) (targetDate : ℤ)
    (st : FetchStatus) : CoordState :=
  match st with
  | FetchStatus.successData payload =>
      let s1 := match payload.currency with
        | some c => { s with currency := some c }
        | none => s
      match op with
      | FetchOp.opToday =>
          { s1 with dataCur := some payload.raw, dateCur := some targetDate }
      | FetchOp.opTomorrow =>
          { s1 with dataNext := some payload.raw, dateNext := some targetDate }
  | _ => s

/-- Steps 1-3 of one scheduling cycle, with the provider modelled as a
function from the target date to the classified outcome of
`_execute_nordpool_call_logic`. -/
def tickState (s : CoordState) (today : ℤ) (fetch : ℤ → FetchStatus) : CoordState :=
  let s1 := rollover s today
  match decideTarget s1 today with
  | none => s1
  | some (d, op) => applyFetchResult s1 op d (fetch d)

/-- The merged raw curve of `_send_updated_data_to_sensor` (lines 108-122):
the current slot when valid for today plus the next slot when valid for
today + 1; stale or empty slots contribute nothing. -/
def mergedRaw (s : CoordState) (today : ℤ) : List RawEntry :=
  (if dataTruthy s.dataCur ∧ s.dateCur = some today then s.dataCur.getD [] else []) ++
  (if dataTruthy s.dataNext ∧ s.dateNext = some (today + 1) then s.dataNext.getD []
   else [])

/-- `_send_updated_data_to_sensor` (lines 106-139): the consumer callback is
invoked (`some payload`) exactly when the combined raw list is non-empty
(`if combined_raw_data:`), with the stored currency and the merged curve. -/
def sendPayload (s : CoordState) (today : ℤ) : Option NordpoolPayload :=
  if mergedRaw s today = [] then none
  else some { currency := s.currency, raw := mergedRaw s today }

/-- Step 4 of the cycle (line 213): the delivery attempted after every fetch
outcome. -/
def tickDelivery (s : CoordState) (today : ℤ) (fetch : ℤ → FetchStatus) :
    Option NordpoolPayload :=
  sendPayload (tickState s today fetch) today

/-- The reset state established by `start()` (lines 290-296). -/
def initialCoordState : CoordState :=
  { currency := none, dataCur := none, dateCur := none,
    dataNext := none, dateNext := none }

/-- A fully-populated coordinator state (both day slots valid for day 0),
used to instantiate the delivery theorems. -/
def cachedState : CoordState :=
  { currency := some "SEK"
    dataCur := some [{ start := 0, endTime := 3600000000, price := 100 }]
    dateCur := some 0
    dataNext := some [{ start := 86400000000, endTime := 90000000000, price := 50 }]
    dateNext := some 1 }

end EPL

namespace EPL

/-! ### Theorems: tariff cost/credit (C1) and level thresholds (C2) -/

theorem calculate_cost_and_credit_eq (cfg : FeeConfig) (spot : ℚ) :
    calculate_cost_and_credit cfg spot = (costSpec cfg spot, creditSpec cfg spot) := by
  simp only [calculate_cost_and_credit, costSpec, creditSpec]

/-- **C1.** For every spot price and fee configuration,
`calculate_cost_and_credit` returns exactly the spec's cost formula
`(spot*(1 + supplier_variable_fee% + grid_variable_fee%) + supplier_fixed_fee +
grid_fixed_fee + energy_tax) * (1 + VAT%)` and credit formula
`spot*(1 + supplier_variable_credit% + grid_variable_credit%) +
supplier_fixed_credit + grid_fixed_credit`, each rounded to 5 decimals, the
credit without any tax/VAT factor; and on the concrete example configuration at
spot 0.05 the results are within 1e-5 of 0.13937 and 0.05735. -/
theorem c1_cost_and_credit_formula :
    (∀ (cfg : FeeConfig) (spot : ℚ),
      calculate_cost_and_credit cfg spot = (costSpec cfg spot, creditSpec cfg spot)) ∧
    |(calculate_cost_and_credit exampleCfg (5/100)).1 - 13937/100000| ≤ 1/100000 ∧
    |(calculate_cost_and_credit exampleCfg (5/100)).2 - 5735/100000| ≤ 1/100000 := by
  refine ⟨calculate_cost_and_credit_eq, ?_, ?_⟩ <;>
    · rw [show ((5 : ℚ)/100) = 1/20 by norm_num]
      simp only [calculate_cost_and_credit, round5, exampleCfg]
      norm_num [round_eq, abs_le]

/-- **C2.** For every cost and every configured pair of thresholds (the config
flow rejects `low >= high`, so `low ≤ high` holds for every configured pair):
`calculate_level` returns `"Low"` iff `cost < low`, `"High"` iff `cost > high`,
and `"Medium"` otherwise; in particular a cost exactly equal to either
threshold is classified `"Medium"`. -/
theorem c2_calculate_level_thresholds (cfg : FeeConfig) (cost : ℚ)
    (hth : cfg.low_threshold ≤ cfg.high_threshold) :
    (calculate_level cfg cost = "Low" ↔ cost < cfg.low_threshold) ∧
    (calculate_level cfg cost = "High" ↔ cost > cfg.high_threshold) ∧
    (calculate_level cfg cost = "Medium" ↔
      cfg.low_threshold ≤ cost ∧ cost ≤ cfg.high_threshold) := by
  unfold calculate_level
  rcases lt_trichotomy cost cfg.low_threshold with h | h | h
  · have h2 : ¬ cost > cfg.high_threshold := not_lt.mpr (le_of_lt (lt_of_lt_of_le h hth))
    simp [h, h2, not_le.mpr h]
  · subst h
    simp [lt_irrefl, not_lt.mpr hth, hth]
  · rcases le_or_lt cost cfg.high_threshold with h2 | h2
    · simp [not_lt.mpr (le_of_lt h), not_lt.mpr h2, le_of_lt h, h2]
    · simp [not_lt.mpr (le_of_lt h), h2, not_le.mpr h2]

/-- Witness for C2: thresholds (0.10, 0.20) from spec §8; cost 0.10 is exactly
the low boundary and classifies `"Medium"`. -/
theorem c2_calculate_level_thresholds_witness :
    ((1:ℚ)/10 ≤ (2:ℚ)/10) ∧
    (calculate_level exampleCfg (1/10) = "Low" ↔ (1:ℚ)/10 < 1/10) := by
  have h := c2_calculate_level_thresholds exampleCfg (1/10) (by norm_num [exampleCfg])
  exact ⟨by norm_num, by simpa [exampleCfg] using h.1⟩

/-- **C10.** In the chunk encoder shared by `calculate_levels` and the
`get_levels` service, a chunk is encoded `'L'` iff every cost is `≤ low`,
`'M'` iff not every cost is `≤ low` but every cost is `< high`, and `'H'`
otherwise; hence (for a configured pair `low < high`) a cost equal to `low`
still permits `'L'` while a chunk containing a cost equal to `high` is forced
to `'H'` — the opposite boundary policy to `calculate_level`, which maps both
boundary costs to `"Medium"`. -/
theorem c10_chunk_boundary_policy (low high : ℚ) (chunk : List ℚ) (hlh : low < high) :
    ((encodeChunk low high chunk = 'L' ↔ ∀ v ∈ chunk, v ≤ low) ∧
     (encodeChunk low high chunk = 'M' ↔
       ¬ (∀ v ∈ chunk, v ≤ low) ∧ ∀ v ∈ chunk, v < high) ∧
     (encodeChunk low high chunk = 'H' ↔
       ¬ (∀ v ∈ chunk, v ≤ low) ∧ ¬ (∀ v ∈ chunk, v < high))) ∧
    (calculate_levels low high chunk.length chunk = [encodeChunk low high chunk] ∨
      chunk = []) ∧
    (encodeChunk low high [low] = 'L' ∧
     (high ∈ chunk → encodeChunk low high chunk = 'H')) ∧
    (calculate_level (thresholdOnlyCfg low high) low = "Medium") ∧
    (calculate_level (thresholdOnlyCfg low high) high = "Medium") := by
  have hle := le_of_lt hlh
  refine ⟨?_, ?_, ⟨?_, ?_⟩, ?_, ?_⟩
  · unfold encodeChunk
    by_cases hL : ∀ v ∈ chunk, v ≤ low
    · rw [if_pos (by simpa [List.all_eq_true] using hL)]
      exact ⟨iff_of_true rfl hL,
        iff_of_false (by decide) (fun h => h.1 hL),
        iff_of_false (by decide) (fun h => h.1 hL)⟩
    · rw [if_neg (by simpa [List.all_eq_true] using hL)]
      by_cases hM : ∀ v ∈ chunk, v < high
      · rw [if_pos (by simpa [List.all_eq_true] using hM)]
        exact ⟨iff_of_false (by decide) (fun h => hL h),
          iff_of_true rfl ⟨hL, hM⟩,
          iff_of_false (by decide) (fun h => h.2 hM)⟩
      · rw [if_neg (by simpa [List.all_eq_true] using hM)]
        exact ⟨iff_of_false (by decide) (fun h => hL h),
          iff_of_false (by decide) (fun h => hM h.2),
          iff_of_true rfl ⟨hL, hM⟩⟩
  · by_cases hne : chunk = []
    · exact Or.inr hne
    · left
      have hlen : chunk.length ≠ 0 := by simpa [List.length_eq_zero] using hne
      unfold calculate_levels
      rw [chunkList, dif_neg (by simp [hlen, hne])]
      rw [List.take_of_length_le (le_refl _), List.drop_of_length_le (le_refl _)]
      rw [chunkList, dif_pos (Or.inr rfl)]
      simp
  · simp [encodeChunk]
  · intro hmem
    unfold encodeChunk
    have h1 : ¬ chunk.all (fun val => decide (val ≤ low)) = true := by
      simp only [List.all_eq_true, decide_eq_true_eq]
      intro hall
      exact absurd (hall high hmem) (not_le.mpr hlh)
    have h2 : ¬ chunk.all (fun val => decide (val < high)) = true := by
      simp only [List.all_eq_true, decide_eq_true_eq]
      intro hall
      exact absurd (hall high hmem) (lt_irrefl high)
    simp [h1, h2]
  · simp [calculate_level, thresholdOnlyCfg, lt_irrefl, not_lt.mpr hle]
  · simp [calculate_level, thresholdOnlyCfg, lt_irrefl, not_lt.mpr hle]

/-- Witness for C10 at low = 0.10, high = 0.20 with the chunk [0.10, 0.20]:
the boundary cost 0.20 forces `'H'`. -/
theorem c10_chunk_boundary_policy_witness :
    (1:ℚ)/10 < 2/10 ∧ encodeChunk (1/10) (2/10) [1/10, 2/10] = 'H' := by
  have h := c10_chunk_boundary_policy (1/10) (2/10) [1/10, 2/10] (by norm_num)
  exact ⟨by norm_num, h.2.2.1.2 (by simp)⟩

/-! ### Theorems: pattern compaction encoder (C4, C5) -/

theorem foldl_stepAccum (cs ce : ℤ) (rates : List RateRecord) :
    ∀ acc : ℕ × ℕ,
      rates.foldl (stepAccum cs ce) acc =
        (acc.1 + ((contributing rates cs ce).map (fun x => levelWeight x.level)).sum,
          acc.2 + (contributing rates cs ce).length) := by
  induction rates with
  | nil => intro acc; simp [contributing]
  | cons r rest ih =>
    intro acc
    rw [List.foldl_cons, ih]
    by_cases hc : cs ≥ r.start ∧ ce ≤ r.endTime
    · by_cases hlo : r.level = "Low"
      · have hacc : stepAccum cs ce acc r = (acc.1 + 1, acc.2 + 1) := by
          simp only [stepAccum]
          rw [if_pos hc, if_pos hlo]
        have hcon : contributing (r :: rest) cs ce = r :: contributing rest cs ce := by
          simp only [contributing, List.filter_cons]
          rw [if_pos (by simp [hc, hlo])]
        have hw : levelWeight r.level = 1 := by
          simp only [levelWeight]
          rw [if_pos hlo]
        rw [hacc, hcon, List.map_cons, List.sum_cons, List.length_cons, hw]
        simp only [Prod.ext_iff]
        exact ⟨by omega, by omega⟩
      · by_cases hme : r.level = "Medium"
        · have hacc : stepAccum cs ce acc r = (acc.1 + 2, acc.2 + 1) := by
            simp only [stepAccum]
            rw [if_pos hc, if_neg hlo, if_pos hme]
          have hcon : contributing (r :: rest) cs ce = r :: contributing rest cs ce := by
            simp only [contributing, List.filter_cons]
            rw [if_pos (by simp [hc, hme])]
          have hw : levelWeight r.level = 2 := by
            simp only [levelWeight]
            rw [if_neg hlo, if_pos hme]
          rw [hacc, hcon, List.map_cons, List.sum_cons, List.length_cons, hw]
          simp only [Prod.ext_iff]
          exact ⟨by omega, by omega⟩
        · by_cases hhi : r.level = "High"
          · have hacc : stepAccum cs ce acc r = (acc.1 + 3, acc.2 + 1) := by
              simp only [stepAccum]
              rw [if_pos hc, if_neg hlo, if_neg hme, if_pos hhi]
            have hcon : contributing (r :: rest) cs ce = r :: contributing rest cs ce := by
              simp only [contributing, List.filter_cons]
              rw [if_pos (by simp [hc, hhi])]
            have hw : levelWeight r.level = 3 := by
              simp only [levelWeight]
              rw [if_neg hlo, if_neg hme]
            rw [hacc, hcon, List.map_cons, List.sum_cons, List.length_cons, hw]
            simp only [Prod.ext_iff]
            exact ⟨by omega, by omega⟩
          · have hacc : stepAccum cs ce acc r = acc := by
              simp only [stepAccum]
              rw [if_pos hc, if_neg hlo, if_neg hme, if_neg hhi]
            have hcon : contributing (r :: rest) cs ce = contributing rest cs ce := by
              simp only [contributing, List.filter_cons]
              rw [if_neg (by simp [hlo, hme, hhi])]
            rw [hacc, hcon]
    · have hacc : stepAccum cs ce acc r = acc := by
        simp only [stepAccum]
        rw [if_neg hc]
      have hcon : contributing (r :: rest) cs ce = contributing rest cs ce := by
        simp only [contributing, List.filter_cons]
        rw [if_neg (by simp [hc])]
      rw [hacc, hcon]

theorem stepWeights_eq_contributing (rates : List RateRecord) (cs ce : ℤ) :
    stepWeights rates cs ce =
      (((contributing rates cs ce).map (fun x => levelWeight x.level)).sum,
        (contributing rates cs ce).length) := by
  simpa using foldl_stepAccum cs ce rates (0, 0)

theorem stepChar_spec (rates : List RateRecord) (cs ce : ℤ) :
    stepChar rates cs ce =
      if contributing rates cs ce = [] then 'U'
      else
        if (((contributing rates cs ce).map (fun x => levelWeight x.level)).sum : ℚ) /
            ((contributing rates cs ce).length : ℚ) > 2 then 'H'
        else if (((contributing rates cs ce).map (fun x => levelWeight x.level)).sum : ℚ) /
            ((contributing rates cs ce).length : ℚ) > 1 then 'M'
        else 'L' := by
  unfold stepChar
  rw [stepWeights_eq_contributing]
  by_cases h : contributing rates cs ce = []
  · simp [h]
  · have hpos : 0 < (contributing rates cs ce).length := List.length_pos.mpr h
    simp only [if_neg h, gt_iff_lt]
    rw [if_pos hpos]

theorem genLoop_length (rates : List RateRecord) (endTime : ℤ) (currentStart : ℤ) :
    (genLoop rates endTime currentStart).length =
      (endTime + 1 - currentStart).toNat / 720000000 := by
  suffices h : ∀ (n : ℕ) (cur : ℤ), (endTime + 1 - cur).toNat = n →
      (genLoop rates endTime cur).length = n / 720000000 from
    h _ currentStart rfl
  intro n
  induction n using Nat.strong_induction_on with
  | _ n ih =>
    intro cur hn
    rw [genLoop]
    split
    · rename_i hcond
      have hstep : (720000000 : ℕ) ≤ n := by
        simp only [stepMicros] at hcond
        omega
      have hnext : (endTime + 1 - (cur + stepMicros)).toNat = n - 720000000 := by
        simp only [stepMicros] at *
        omega
      rw [List.length_cons, ih (n - 720000000) (by omega) _ hnext]
      omega
    · rename_i hcond
      have : n < 720000000 := by
        simp only [stepMicros] at hcond
        omega
      simp only [List.length_nil]
      omega

theorem genLoop_getElem (rates : List RateRecord) (endTime : ℤ) :
    ∀ (cur : ℤ) (k : ℕ), k < (genLoop rates endTime cur).length →
      (genLoop rates endTime cur)[k]? =
        some (stepChar rates (cur + k * stepMicros)
          (cur + k * stepMicros + stepMicros - 1)) := by
  suffices h : ∀ (n : ℕ) (cur : ℤ), (endTime + 1 - cur).toNat = n →
      ∀ k, k < (genLoop rates endTime cur).length →
        (genLoop rates endTime cur)[k]? =
          some (stepChar rates (cur + k * stepMicros)
            (cur + k * stepMicros + stepMicros - 1)) from
    fun cur => h _ cur rfl
  intro n
  induction n using Nat.strong_induction_on with
  | _ n ih =>
    intro cur hn k hk
    rw [genLoop] at hk ⊢
    split at hk
    · rename_i hcond
      have hnext : (endTime + 1 - (cur + stepMicros)).toNat = n - 720000000 ∧
          720000000 ≤ n := by
        simp only [stepMicros] at *
        omega
      match k with
      | 0 =>
        rw [if_pos hcond]
        simp
      | k + 1 =>
        rw [if_pos hcond]
        rw [List.getElem?_cons_succ]
        rw [ih (n - 720000000) (by omega) _ hnext.1 k (by simpa using hk)]
        congr 2 <;> push_cast <;> ring
    · simp at hk

/-- **C5.** `generate_level_pattern` always returns a pattern of exactly
`window/step = 36*60/12 = 180` characters, for every input including the empty
list; the empty input yields 180 `'U'` characters.  The output is never
shorter than 180 characters. -/
theorem c5_pattern_length (rates : List RateRecord) :
    (generate_level_pattern rates).length = 180 ∧
    (rates = [] → generate_level_pattern rates = List.replicate 180 'U') := by
  constructor
  · cases rates with
    | nil =>
      show (List.replicate (36 * 60 / 12) 'U').length = 180
      rw [List.length_replicate]
    | cons r rest =>
      show (genLoop (r :: rest) (r.start + windowMicros) r.start).length = 180
      rw [genLoop_length]
      have h1 : r.start + windowMicros + 1 - r.start = 129600000001 := by
        simp only [windowMicros]
        ring
      rw [h1]
      decide
  · intro h
    subst h
    show List.replicate (36 * 60 / 12) 'U' = List.replicate 180 'U'
    rfl

/-- Witness-free check is impossible for C5's inner implication, so the
conditional branch is instantiated at the empty list. -/
theorem c5_pattern_length_witness :
    (generate_level_pattern []).length = 180 ∧
    generate_level_pattern [] = List.replicate 180 'U' :=
  ⟨(c5_pattern_length []).1, (c5_pattern_length []).2 rfl⟩

/-- **C4.** For each 12-minute grid step of `generate_level_pattern` (pattern
position `k`), the emitted character is computed from exactly the input
intervals that fully contain the step: levels weigh Low=1, Medium=2, High=3,
unrecognised levels are ignored entirely, an uncovered step yields `'U'`, and
otherwise the arithmetic mean `m` of the contributing weights yields `'H'`
when `m > 2`, `'M'` when `m > 1`, and `'L'` otherwise. -/
theorem c4_step_blend (r : RateRecord) (rest : List RateRecord) (k : ℕ) (hk : k < 180) :
    (generate_level_pattern (r :: rest))[k]? =
      some (stepChar (r :: rest) (r.start + k * stepMicros)
        (r.start + k * stepMicros + stepMicros - 1)) ∧
    (∀ (rates : List RateRecord) (cs ce : ℤ),
      stepWeights rates cs ce =
        (((contributing rates cs ce).map (fun x => levelWeight x.level)).sum,
          (contributing rates cs ce).length) ∧
      stepChar rates cs ce =
        (if contributing rates cs ce = [] then 'U'
         else
           if (((contributing rates cs ce).map (fun x => levelWeight x.level)).sum : ℚ) /
               ((contributing rates cs ce).length : ℚ) > 2 then 'H'
           else if (((contributing rates cs ce).map (fun x => levelWeight x.level)).sum : ℚ) /
               ((contributing rates cs ce).length : ℚ) > 1 then 'M'
           else 'L')) := by
  constructor
  · have hlen : (generate_level_pattern (r :: rest)).length = 180 :=
      (c5_pattern_length (r :: rest)).1
    show (genLoop (r :: rest) (r.start + windowMicros) r.start)[k]? = _
    exact genLoop_getElem (r :: rest) (r.start + windowMicros) r.start k (by
      have : (genLoop (r :: rest) (r.start + windowMicros) r.start).length = 180 := hlen
      omega)
  · intro rates cs ce
    exact ⟨stepWeights_eq_contributing rates cs ce, stepChar_spec rates cs ce⟩

/-- Witness for C4: the blended scenario of spec §8.  Three rates classified
Low, Medium and High all fully contain the first grid step, so the mean is
exactly 2 and the first character is `'M'`; with only the Medium and High
rates the mean is 2.5 and the step yields `'H'`. -/
theorem c4_step_blend_witness :
    (0 : ℕ) < 180 ∧
    (generate_level_pattern
        [⟨0, 129600000000, 0, 0, 0, "Low", none⟩,
         ⟨0, 129600000000, 0, 0, 0, "Medium", none⟩,
         ⟨0, 129600000000, 0, 0, 0, "High", none⟩])[0]? = some 'M' ∧
    stepChar [⟨0, 129600000000, 0, 0, 0, "Medium", none⟩,
        ⟨0, 129600000000, 0, 0, 0, "High", none⟩] 0 719999999 = 'H' := by
  have h := c4_step_blend (⟨0, 129600000000, 0, 0, 0, "Low", none⟩)
    [⟨0, 129600000000, 0, 0, 0, "Medium", none⟩,
     ⟨0, 129600000000, 0, 0, 0, "High", none⟩] 0 (by norm_num)
  refine ⟨by norm_num, ?_, ?_⟩
  · rw [h.1]
    norm_num [stepMicros]
    simp +decide [stepChar, stepWeights, stepAccum, List.foldl] <;> norm_num
  · simp +decide [stepChar, stepWeights, stepAccum, List.foldl] <;> norm_num

end EPL

namespace EPL

/-! ### Theorems: acquisition scheduler (C6, C7) -/

/-- **C6.** In every scheduler cycle whose fetch outcome is anything other
than `SUCCESS_DATA` (or in which no fetch was attempted), the cycle leaves
the post-rollover state untouched: both cached day slots, their dates and the
currency are exactly as the midnight-rollover step left them, and when no
rollover is due (the cached current date is not older than today) the whole
state is unchanged.  The fetch-handling step itself never changes the state
on a non-`SUCCESS_DATA` status, and even a `SUCCESS_DATA` response that
supplies no currency leaves a previously known currency intact. -/
theorem c6_failure_preserves_cache (s : CoordState) (today : ℤ)
    (fetch : ℤ → FetchStatus)
    (hfail : ∀ d p, fetch d ≠ FetchStatus.successData p) :
    tickState s today fetch = rollover s today ∧
    (∀ (t : CoordState) (op : FetchOp) (d : ℤ) (st : FetchStatus),
      (∀ p, st ≠ FetchStatus.successData p) → applyFetchResult t op d st = t) ∧
    (∀ (t : CoordState) (op : FetchOp) (d : ℤ) (payload : NordpoolPayload),
      payload.currency = none →
      (applyFetchResult t op d (FetchStatus.successData payload)).currency = t.currency) ∧
    ((∀ d, s.dateCur = some d → ¬ d < today) → rollover s today = s) := by
  have happly : ∀ (t : CoordState) (op : FetchOp) (d : ℤ) (st : FetchStatus),
      (∀ p, st ≠ FetchStatus.successData p) → applyFetchResult t op d st = t := by
    intro t op d st hst
    cases st with
    | successData p => exact absurd rfl (hst p)
    | successNoData => rfl
    | errorServiceNotReady => rfl
    | errorBadResponseStructure => rfl
    | errorOther => rfl
  refine ⟨?_, happly, ?_, ?_⟩
  · cases hdt : decideTarget (rollover s today) today with
    | none => simp [tickState, hdt]
    | some x =>
      obtain ⟨d, op⟩ := x
      simp only [tickState, hdt]
      exact happly _ op d _ (hfail d)
  · intro t op d payload hpc
    cases op <;> simp [applyFetchResult, hpc]
  · intro hnottoday
    unfold rollover
    cases hdc : s.dateCur with
    | none => rfl
    | some d => simp [hnottoday d hdc]

/-- Witness for C6: a cycle on the freshly-reset state whose provider always
answers `ERROR_SERVICE_NOT_READY` leaves the (post-rollover) state unchanged. -/
theorem c6_failure_preserves_cache_witness :
    (∀ (d : ℤ) (p : NordpoolPayload),
      (fun _ : ℤ => FetchStatus.errorServiceNotReady) d ≠ FetchStatus.successData p) ∧
    tickState initialCoordState 0 (fun _ => FetchStatus.errorServiceNotReady) =
      rollover initialCoordState 0 := by
  have h := c6_failure_preserves_cache initialCoordState 0
    (fun _ => FetchStatus.errorServiceNotReady) (fun d p => by simp)
  exact ⟨fun d p => by simp, h.1⟩

/-- **C7 counterexample.** The claim states the consumer callback is invoked
after every scheduling cycle, even on fetch failure.  On the freshly-reset
state with a provider that fails, the cycle produces no delivery at all
(`none` models `data_update_callback` not being awaited, because
`_send_updated_data_to_sensor` only invokes it `if combined_raw_data:`). -/
theorem c7_counterexample_no_delivery :
    tickDelivery initialCoordState 0 (fun _ => FetchStatus.errorOther) = none := by
  rfl

/-- **C7 (amended).** After every scheduler cycle — regardless of the fetch
outcome — delivery is attempted, and the consumer callback is invoked with
the stored currency and the merged raw curve built from the cache entries
valid for today and today+1 exactly when that merged curve is non-empty;
when no valid cached data exists, the callback is not invoked. -/
theorem c7_delivery_iff_cached_data (s : CoordState) (today : ℤ)
    (fetch : ℤ → FetchStatus) :
    (mergedRaw (tickState s today fetch) today ≠ [] →
      tickDelivery s today fetch =
        some { currency := (tickState s today fetch).currency,
               raw := mergedRaw (tickState s today fetch) today }) ∧
    (mergedRaw (tickState s today fetch) today = [] →
      tickDelivery s today fetch = none) := by
  unfold tickDelivery sendPayload
  exact ⟨fun h => if_neg h, fun h => if_pos h⟩

/-- Witness for C7 (amended): a cycle on a fully-cached state (failing
provider) delivers both cached day curves with the stored currency. -/
theorem c7_delivery_iff_cached_data_witness :
    mergedRaw (tickState cachedState 0 (fun _ => FetchStatus.errorOther)) 0 ≠ [] ∧
    tickDelivery cachedState 0 (fun _ => FetchStatus.errorOther) =
      some { currency := some "SEK",
             raw := [{ start := 0, endTime := 3600000000, price := 100 },
                     { start := 86400000000, endTime := 90000000000, price := 50 }] } := by
  have h := (c7_delivery_iff_cached_data cachedState 0 (fun _ => FetchStatus.errorOther)).1
  refine ⟨by decide, ?_⟩
  rw [h (by decide)]
  decide

end EPL

namespace EPL

/-! ### Theorems: ranking engine (C3, C8) -/

theorem findIdx?_eq_some_of_first {α : Type} (p : α → Bool) :
    ∀ (l : List α) (i : ℕ) (hi : i < l.length),
      p l[i] = true →
      (∀ (j : ℕ) (hj : j < l.length), j < i → p l[j] = false) →
      ∀ n : ℕ, l.findIdx? p n = some (n + i) := by
  intro l
  induction l with
  | nil => intro i hi; simp at hi
  | cons a t ih =>
    intro i hi hp hmin n
    match i with
    | 0 =>
      rw [List.findIdx?_cons, if_pos (by simpa using hp)]
      simp
    | i + 1 =>
      have ha : p a = false := hmin 0 (by simp) (by omega)
      rw [List.findIdx?_cons, if_neg (by simp [ha])]
      have hi2 : i < t.length := by simpa using hi
      have hrec := ih i hi2 (by simpa using hp)
        (fun j hj hji => by simpa using hmin (j + 1) (by simpa using hj) (by omega)) (n + 1)
      rw [hrec]
      congr 1
      omega

theorem findIdx?_lt_length {α : Type} (p : α → Bool) :
    ∀ (l : List α) (n i : ℕ), l.findIdx? p n = some i → i < n + l.length := by
  intro l
  induction l with
  | nil => intro n i h; simp [List.findIdx?] at h
  | cons a t ih =>
    intro n i h
    rw [List.findIdx?_cons] at h
    by_cases hp : p a = true
    · rw [if_pos hp] at h
      cases h
      simp
    · rw [if_neg hp] at h
      have := ih (n + 1) i h
      simp only [List.length_cons]
      omega

theorem sortByValue_perm (g : List PriceEntry) : (sortByValue g).Perm g :=
  List.perm_insertionSort _ g

theorem sortByValue_length (g : List PriceEntry) : (sortByValue g).length = g.length :=
  (sortByValue_perm g).length_eq

theorem rankOf_at_position (g : List PriceEntry) (e : PriceEntry)
    (hnd : (g.map (fun x => x.start)).Nodup)
    (i : ℕ) (hi : i < (sortByValue g).length)
    (hie : (sortByValue g)[i] = e) :
    rankOf e (sortByValue g) =
      if g.length = 1 then some 1 else some (i * 99 / (g.length - 1) + 1) := by
  have hlen : (sortByValue g).length = g.length := sortByValue_length g
  have hnds : ((sortByValue g).map (fun x => x.start)).Nodup :=
    (((sortByValue_perm g).map (fun x => x.start)).nodup_iff).mpr hnd
  have hfind : (sortByValue g).findIdx?
      (fun x => decide (x.start = e.start ∧ x.value = e.value)) 0 = some i := by
    have h0 := findIdx?_eq_some_of_first
      (fun x => decide (x.start = e.start ∧ x.value = e.value)) (sortByValue g) i hi
      (by rw [hie]; simp)
      (fun j hj hji => by
        rw [decide_eq_false_iff_not]
        rintro ⟨hs, -⟩
        have hj2 : j < ((sortByValue g).map (fun x => x.start)).length := by simpa using hj
        have hi2 : i < ((sortByValue g).map (fun x => x.start)).length := by simpa using hi
        have heq : ((sortByValue g).map (fun x => x.start))[j] =
            ((sortByValue g).map (fun x => x.start))[i] := by
          rw [List.getElem_map, List.getElem_map, hie, hs]
        have := (hnds.getElem_inj_iff).mp heq
        omega) 0
    simpa using h0
  unfold rankOf
  rw [if_neg (by omega), hfind, hlen]

theorem rankOf_not_found (e : PriceEntry) (l : List PriceEntry)
    (h : ∀ x ∈ l, ¬ (x.start = e.start ∧ x.value = e.value)) :
    rankOf e l = none := by
  unfold rankOf
  by_cases h0 : l.length = 0
  · rw [if_pos h0]
  · rw [if_neg h0, List.findIdx?_eq_none_iff.mpr (fun x hx => by simpa using h x hx)]

theorem rankOf_bounds (e : PriceEntry) (l : List PriceEntry) (k : ℕ)
    (h : rankOf e l = some k) : 1 ≤ k ∧ k ≤ 100 := by
  unfold rankOf at h
  by_cases h0 : l.length = 0
  · rw [if_pos h0] at h
    cases h
  · rw [if_neg h0] at h
    cases hf : l.findIdx? (fun x => decide (x.start = e.start ∧ x.value = e.value)) with
    | none => rw [hf] at h; cases h
    | some i =>
      rw [hf] at h
      dsimp only at h
      have hi : i < l.length := by simpa using findIdx?_lt_length _ l 0 i hf
      by_cases h1 : l.length = 1
      · rw [if_pos h1] at h
        cases h
        norm_num
      · rw [if_neg h1] at h
        cases h
        have hpos : 0 < l.length - 1 := by omega
        have hle : i ≤ l.length - 1 := by omega
        have hdiv : i * 99 / (l.length - 1) ≤ 99 := by
          calc i * 99 / (l.length - 1)
              ≤ (l.length - 1) * 99 / (l.length - 1) :=
                Nat.div_le_div_right (Nat.mul_le_mul_right _ hle)
            _ = 99 := Nat.mul_div_cancel_left 99 hpos
        exact ⟨Nat.le_add_left 1 _, by simpa using Nat.add_le_add_right hdiv 1⟩

theorem rankOf_isSome_of_nodup (g : List PriceEntry) (e : PriceEntry)
    (he : e ∈ g) (hnd : (g.map (fun x => x.start)).Nodup) :
    ∃ k, rankOf e (sortByValue g) = some k ∧ 1 ≤ k ∧ k ≤ 100 := by
  have hes : e ∈ sortByValue g := (sortByValue_perm g).mem_iff.mpr he
  obtain ⟨⟨i, hi⟩, hie⟩ := List.mem_iff_get.mp hes
  rw [List.get_eq_getElem] at hie
  have hsome : ∃ k, rankOf e (sortByValue g) = some k := by
    rw [rankOf_at_position g e hnd i hi hie]
    by_cases h1 : g.length = 1
    · exact ⟨1, by rw [if_pos h1]⟩
    · exact ⟨_, by rw [if_neg h1]⟩
  obtain ⟨k, hk⟩ := hsome
  exact ⟨k, hk, rankOf_bounds e (sortByValue g) k hk⟩

theorem rankIdx_strict_mono (n : ℕ) (hn : n ≤ 100) (h2 : 2 ≤ n) (i j : ℕ)
    (hij : i < j) (hj : j < n) : i * 99 / (n - 1) < j * 99 / (n - 1) := by
  have hpos : 0 < n - 1 := by omega
  have hstep : i * 99 / (n - 1) + 1 ≤ (i + 1) * 99 / (n - 1) := by
    have hle : i * 99 + (n - 1) ≤ (i + 1) * 99 := by
      have : n - 1 ≤ 99 := by omega
      nlinarith
    calc i * 99 / (n - 1) + 1 = (i * 99 + (n - 1)) / (n - 1) :=
        (Nat.add_div_right _ hpos).symm
      _ ≤ (i + 1) * 99 / (n - 1) := Nat.div_le_div_right hle
  have hmono : (i + 1) * 99 / (n - 1) ≤ j * 99 / (n - 1) :=
    Nat.div_le_div_right (Nat.mul_le_mul_right _ (by omega))
  omega

end EPL

namespace EPL

/-- **C3.** Entries are grouped by the local calendar date of their start
(`groupsByDay`) and each day's group is stable-sorted ascending by spot
price; the entry at 0-based sorted position `i` of a group of size `n` (with
distinct start instants) receives rank `⌊i/(n-1)·99⌋ + 1 = i*99/(n-1) + 1`
when `n > 1` and rank 1 when `n = 1`; an entry that cannot be located in its
day's sorted group gets rank `"N/A"` (`none`) while its record is still fully
built and appended, and processing continues — the day loop produces exactly
one record per entry. -/
theorem c3_rank_assignment (cfg : FeeConfig) (g : List PriceEntry) (e : PriceEntry)
    (hnd : (g.map (fun x => x.start)).Nodup)
    (i : ℕ) (hi : i < (sortByValue g).length)
    (hie : (sortByValue g)[i] = e) :
    ((process_entry cfg e (sortByValue g)).rank =
      if g.length = 1 then some 1 else some (i * 99 / (g.length - 1) + 1)) ∧
    (∀ e2 : PriceEntry,
      (∀ x ∈ sortByValue g, ¬ (x.start = e2.start ∧ x.value = e2.value)) →
      process_entry cfg e2 (sortByValue g) =
        { start := e2.start, endTime := e2.endTime, spot_price := e2.value,
          cost := (calculate_cost_and_credit cfg e2.value).1,
          credit := (calculate_cost_and_credit cfg e2.value).2,
          level := calculate_level cfg (calculate_cost_and_credit cfg e2.value).1,
          rank := none }) ∧
    (processDay cfg g).length = g.length := by
  refine ⟨?_, ?_, by simp [processDay]⟩
  · show rankOf e (sortByValue g) = _
    exact rankOf_at_position g e hnd i hi hie
  · intro e2 h2
    unfold process_entry
    rw [rankOf_not_found e2 _ h2]

/-- Witness for C3: in the three-entry group `g3` (distinct starts, values
30/10/20) the entry with the highest value sits at sorted position 2 and
receives rank `2*99/2 + 1 = 100`. -/
theorem c3_rank_assignment_witness :
    (process_entry exampleCfg { start := 0, endTime := 10, value := 30 }
      (sortByValue g3)).rank = some 100 := by
  have h := c3_rank_assignment exampleCfg g3 { start := 0, endTime := 10, value := 30 }
    (by decide) 2 (by decide) (by decide)
  rw [h.1]
  decide

/-- **C8 counterexample.** The claim asserts `n` distinct ranks within
{1,...,100} for every day group of `n` entries with distinct starts.  The
101-entry group `bigGroup` has distinct starts, yet its ranks — all of the
form `some k` with `k ∈ [1,100]` — can take at most 100 distinct values, so
their number is strictly below 101. -/
theorem c8_counterexample :
    (bigGroup.map (fun x => x.start)).Nodup ∧ bigGroup.length = 101 ∧
    ((processDay exampleCfg bigGroup).map (fun r => r.rank)).toFinset.card < 101 := by
  have hnd : (bigGroup.map (fun x => x.start)).Nodup := by
    have hmap : bigGroup.map (fun x => x.start) =
        (List.range 101).map (fun k : ℕ => (k : ℤ)) := by
      unfold bigGroup
      rw [List.map_map]
      rfl
    rw [hmap]
    exact (List.nodup_range 101).map (fun a b h => by exact_mod_cast h)
  have hlen : bigGroup.length = 101 := by
    unfold bigGroup
    rw [List.length_map, List.length_range]
  refine ⟨hnd, hlen, ?_⟩
  have hsub : ((processDay exampleCfg bigGroup).map (fun r => r.rank)).toFinset ⊆
      (Finset.Icc (1 : ℕ) 100).image some := by
    intro r hr
    rw [List.mem_toFinset, List.mem_map] at hr
    obtain ⟨rec, hrec, rfl⟩ := hr
    rw [processDay, List.mem_map] at hrec
    obtain ⟨e, he, rfl⟩ := hrec
    obtain ⟨k, hk, h1, h100⟩ := rankOf_isSome_of_nodup bigGroup e he hnd
    show (process_entry exampleCfg e (sortByValue bigGroup)).rank ∈ _
    unfold process_entry
    rw [hk]
    exact Finset.mem_image.mpr ⟨k, Finset.mem_Icc.mpr ⟨h1, h100⟩, rfl⟩
  calc ((processDay exampleCfg bigGroup).map (fun r => r.rank)).toFinset.card
      ≤ ((Finset.Icc (1 : ℕ) 100).image some).card := Finset.card_le_card hsub
    _ ≤ (Finset.Icc (1 : ℕ) 100).card := Finset.card_image_le
    _ = 100 := by simp
    _ < 101 := by norm_num

end EPL

namespace EPL

theorem rankOf_self_singleton (a : PriceEntry) : rankOf a [a] = some 1 := by
  unfold rankOf
  rw [if_neg (by simp), List.findIdx?_cons, if_pos (by simp)]
  simp

/-- **C8 (amended).** For every day group of `n` entries with distinct start
instants and `n ≤ 100` (a bound the counterexample forces: only 100 rank
values exist), the assigned ranks are exactly `n` distinct values inside
{1,...,100}, and exactly {`some 1`} when `n = 1`. -/
theorem c8_ranks_distinct (cfg : FeeConfig) (g : List PriceEntry)
    (hnd : (g.map (fun x => x.start)).Nodup) (hn : g.length ≤ 100) :
    ((processDay cfg g).map (fun r => r.rank)).toFinset.card = g.length ∧
    (∀ r ∈ (processDay cfg g).map (fun r => r.rank),
      ∃ k, r = some k ∧ 1 ≤ k ∧ k ≤ 100) ∧
    (g.length = 1 → (processDay cfg g).map (fun r => r.rank) = [some 1]) := by
  have hranks : (processDay cfg g).map (fun r => r.rank) =
      g.map (fun e => rankOf e (sortByValue g)) := by
    unfold processDay
    rw [List.map_map]
    rfl
  refine ⟨?_, ?_, ?_⟩
  · rw [hranks]
    have hgnd : g.Nodup := hnd.of_map _
    have hinj : ∀ e1 ∈ g, ∀ e2 ∈ g,
        rankOf e1 (sortByValue g) = rankOf e2 (sortByValue g) → e1 = e2 := by
      intro e1 he1 e2 he2 heq
      by_cases h1 : g.length = 1
      · obtain ⟨a, ha⟩ := List.length_eq_one.mp h1
        subst ha
        rw [List.mem_singleton] at he1 he2
        rw [he1, he2]
      · obtain ⟨⟨i1, hi1⟩, hie1⟩ :=
          List.mem_iff_get.mp ((sortByValue_perm g).mem_iff.mpr he1)
        obtain ⟨⟨i2, hi2⟩, hie2⟩ :=
          List.mem_iff_get.mp ((sortByValue_perm g).mem_iff.mpr he2)
        rw [List.get_eq_getElem] at hie1 hie2
        rw [rankOf_at_position g e1 hnd i1 hi1 hie1,
          rankOf_at_position g e2 hnd i2 hi2 hie2, if_neg h1, if_neg h1] at heq
        have h0 : 0 < g.length := List.length_pos.mpr (List.ne_nil_of_mem he1)
        have h2 : 2 ≤ g.length := by omega
        have heq2 : i1 * 99 / (g.length - 1) = i2 * 99 / (g.length - 1) :=
          Nat.add_right_cancel (Option.some.inj heq)
        have hii : i1 = i2 := by
          by_contra hne
          rcases Nat.lt_or_ge i1 i2 with hlt | hge
          · exact absurd heq2 (Nat.ne_of_lt (rankIdx_strict_mono g.length hn h2 i1 i2
              hlt (by rwa [sortByValue_length] at hi2)))
          · have hlt2 : i2 < i1 := by omega
            exact absurd heq2.symm (Nat.ne_of_lt (rankIdx_strict_mono g.length hn h2 i2 i1
              hlt2 (by rwa [sortByValue_length] at hi1)))
        subst hii
        exact hie1.symm.trans hie2
    have hnodup : (g.map (fun e => rankOf e (sortByValue g))).Nodup :=
      List.Nodup.map_on hinj hgnd
    rw [List.toFinset_card_of_nodup hnodup, List.length_map]
  · rw [hranks]
    intro r hr
    rw [List.mem_map] at hr
    obtain ⟨e, he, rfl⟩ := hr
    exact rankOf_isSome_of_nodup g e he hnd
  · intro h1
    obtain ⟨a, ha⟩ := List.length_eq_one.mp h1
    subst ha
    rw [hranks]
    show [rankOf a (sortByValue [a])] = [some 1]
    rw [show sortByValue [a] = [a] from rfl, rankOf_self_singleton]

/-- Witness for C8 (amended): the three-entry group `g3` receives exactly
three distinct ranks. -/
theorem c8_ranks_distinct_witness :
    (g3.map (fun x => x.start)).Nodup ∧ g3.length ≤ 100 ∧
    ((processDay exampleCfg g3).map (fun r => r.rank)).toFinset.card = g3.length := by
  have h := c8_ranks_distinct exampleCfg g3 (by decide) (by decide)
  exact ⟨by decide, by decide, h.1⟩

end EPL

namespace EPL

/-! ### Theorems: interval invariants of the stored rates (C9) -/

theorem flatten_filter_perm {α κ : Type} [DecidableEq κ] (key : α → κ) :
    ∀ (keys : List κ), keys.Nodup → ∀ (l : List α), (∀ x ∈ l, key x ∈ keys) →
      ((keys.map (fun k => l.filter (fun x => decide (key x = k)))).flatten).Perm l := by
  intro keys
  induction keys with
  | nil =>
    intro hnd l hcov
    have hl : l = [] :=
      List.eq_nil_iff_forall_not_mem.mpr (fun a ha => by simpa using hcov a ha)
    subst hl
    simp
  | cons k ks ih =>
    intro hnd l hcov
    rw [List.map_cons, List.flatten_cons]
    have hks : ∀ k2 ∈ ks, l.filter (fun x => decide (key x = k2)) =
        (l.filter (fun x => ! decide (key x = k))).filter
          (fun x => decide (key x = k2)) := by
      intro k2 hk2
      have hkk2 : k ≠ k2 := fun h => (List.nodup_cons.mp hnd).1 (h ▸ hk2)
      rw [List.filter_filter]
      apply List.filter_congr
      intro x hx
      by_cases hxk : key x = k2
      · have hxk2 : ¬ (key x = k) := fun h => hkk2 (h.symm.trans hxk)
        simp [hxk, hxk2, Ne.symm hkk2]
      · simp [hxk]
    have hmapeq : ks.map (fun k2 => l.filter (fun x => decide (key x = k2))) =
        ks.map (fun k2 => (l.filter (fun x => ! decide (key x = k))).filter
          (fun x => decide (key x = k2))) := List.map_congr_left hks
    rw [hmapeq]
    have hcov2 : ∀ x ∈ l.filter (fun x => ! decide (key x = k)), key x ∈ ks := by
      intro x hx
      rw [List.mem_filter] at hx
      rcases List.mem_cons.mp (hcov x hx.1) with h | h
      · exact absurd h (by simpa using hx.2)
      · exact h
    have hperm2 := ih (List.nodup_cons.mp hnd).2
      (l.filter (fun x => ! decide (key x = k))) hcov2
    exact List.Perm.trans (List.Perm.append_left _ hperm2) (List.filter_append_perm _ l)

theorem groupsByDay_flatten_perm (parsed : List PriceEntry) :
    ((groupsByDay parsed).flatten).Perm parsed := by
  unfold groupsByDay
  exact flatten_filter_perm (fun e => dateOf e.start) _ (List.nodup_dedup _) parsed
    (fun x hx => List.mem_dedup.mpr (List.mem_map_of_mem (fun e => dateOf e.start) hx))

theorem ratesOf_pairs_perm (cfg : FeeConfig) (raw : List RawEntry) :
    ((ratesOf cfg raw).map (fun r => (r.start, r.endTime))).Perm
      (raw.map (fun e => (e.start, e.endTime - 1))) := by
  unfold ratesOf
  have h1 : ((List.insertionSort (fun a b : RateRecord => a.start ≤ b.start)
      (((groupsByDay (raw.map parseEntry)).map (processDay cfg)).flatten)).map
        (fun r => (r.start, r.endTime))).Perm
      ((((groupsByDay (raw.map parseEntry)).map (processDay cfg)).flatten).map
        (fun r => (r.start, r.endTime))) :=
    (List.perm_insertionSort _ _).map _
  refine h1.trans ?_
  rw [List.map_flatten, List.map_map]
  have h2 : ((groupsByDay (raw.map parseEntry)).map
        ((fun l : List RateRecord => l.map (fun r => (r.start, r.endTime))) ∘
          processDay cfg)) =
      (groupsByDay (raw.map parseEntry)).map
        (fun g => g.map (fun e : PriceEntry => (e.start, e.endTime))) := by
    apply List.map_congr_left
    intro g _
    show (processDay cfg g).map (fun r => (r.start, r.endTime)) = _
    unfold processDay
    rw [List.map_map]
    rfl
  rw [h2, ← List.map_flatten]
  have h3 := (groupsByDay_flatten_perm (raw.map parseEntry)).map
    (fun e : PriceEntry => (e.start, e.endTime))
  refine h3.trans ?_
  rw [List.map_map]
  rfl

theorem contiguous_head_bound (a : RawEntry) :
    ∀ rest : List RawEntry,
      List.Chain' (fun x y => x.endTime = y.start) (a :: rest) →
      (∀ e ∈ a :: rest, e.start < e.endTime) →
      ∀ c ∈ rest, a.endTime ≤ c.start := by
  intro rest
  induction rest generalizing a with
  | nil =>
    intro _ _ c hc
    simp at hc
  | cons b t ih =>
    intro hchain hpos c hc
    have hab : a.endTime = b.start := (List.chain'_cons.mp hchain).1
    rcases List.mem_cons.mp hc with rfl | hct
    · exact le_of_eq hab
    · have hbc := ih b (List.chain'_cons.mp hchain).2
        (fun e he => hpos e (List.mem_cons_of_mem a he)) c hct
      have hb : b.start < b.endTime := hpos b (by simp)
      omega

theorem contiguous_pairwise_raw : ∀ raw : List RawEntry,
    (∀ e ∈ raw, e.start < e.endTime) →
    List.Chain' (fun x y => x.endTime = y.start) raw →
    List.Pairwise (fun x y => x.endTime ≤ y.start) raw := by
  intro raw
  induction raw with
  | nil =>
    intro _ _
    exact List.Pairwise.nil
  | cons a rest ih =>
    intro hpos hchain
    rw [List.pairwise_cons]
    exact ⟨contiguous_head_bound a rest hchain hpos,
      ih (fun e he => hpos e (List.mem_cons_of_mem a he)) hchain.tail⟩

theorem ratesOf_pairwise_disjoint (cfg : FeeConfig) (raw : List RawEntry)
    (h : contiguousRaw raw) :
    List.Pairwise (fun r1 r2 : RateRecord =>
      r1.endTime < r2.start ∨ r2.endTime < r1.start) (ratesOf cfg raw) := by
  have hsym : ∀ {p q : ℤ × ℤ}, (p.2 < q.1 ∨ q.2 < p.1) → (q.2 < p.1 ∨ p.2 < q.1) :=
    fun hpq => hpq.symm
  have hperm := ratesOf_pairs_perm cfg raw
  have hpr : List.Pairwise (fun p q : ℤ × ℤ => p.2 < q.1 ∨ q.2 < p.1)
      (raw.map (fun e => (e.start, e.endTime - 1))) := by
    rw [List.pairwise_map]
    exact (contiguous_pairwise_raw raw h.1 h.2).imp (fun hab => Or.inl (by omega))
  have hres := (hperm.pairwise_iff hsym).mpr hpr
  rwa [List.pairwise_map] at hres

theorem pairwise_disjoint_count (t : ℤ) : ∀ l : List RateRecord,
    List.Pairwise (fun r1 r2 => r1.endTime < r2.start ∨ r2.endTime < r1.start) l →
    l.countP (fun r => decide (r.start ≤ t ∧ t ≤ r.endTime)) ≤ 1 := by
  intro l
  induction l with
  | nil =>
    intro _
    simp
  | cons a rest ih =>
    intro hp
    rw [List.pairwise_cons] at hp
    rw [List.countP_cons]
    by_cases ha : a.start ≤ t ∧ t ≤ a.endTime
    · have hz : rest.countP (fun r => decide (r.start ≤ t ∧ t ≤ r.endTime)) = 0 := by
        rw [List.countP_eq_zero]
        intro r hr
        have hd := hp.1 r hr
        simp only [decide_eq_true_eq]
        rintro ⟨h1, h2⟩
        rcases hd with h3 | h3 <;> omega
      rw [hz]
      simp [ha]
    · have hfa : (decide (a.start ≤ t ∧ t ≤ a.endTime)) = false := by simpa using ha
      rw [hfa]
      simpa using ih hp.2

/-- **C9.** Every record stored by `async_update_data` carries an end
timestamp equal to its raw entry's parsed end minus one microsecond; for a
raw curve of contiguous positive-length half-open intervals the stored
records' closed intervals `[start, endTime]` are pairwise disjoint, so for
every instant at most one stored record contains it in the current-rate
lookup. -/
theorem c9_end_shift_disjoint (cfg : FeeConfig) (raw : List RawEntry) :
    (∀ r ∈ ratesOf cfg raw, ∃ e ∈ raw, r.start = e.start ∧ r.endTime = e.endTime - 1) ∧
    (contiguousRaw raw →
      List.Pairwise (fun r1 r2 : RateRecord =>
        r1.endTime < r2.start ∨ r2.endTime < r1.start) (ratesOf cfg raw) ∧
      ∀ t : ℤ, (ratesOf cfg raw).countP (fun r => decide (containsInstant r t)) ≤ 1) := by
  refine ⟨?_, fun hc => ⟨ratesOf_pairwise_disjoint cfg raw hc,
    fun t => pairwise_disjoint_count t _ (ratesOf_pairwise_disjoint cfg raw hc)⟩⟩
  intro r hr
  have hperm := ratesOf_pairs_perm cfg raw
  have hmem : (r.start, r.endTime) ∈
      (ratesOf cfg raw).map (fun x => (x.start, x.endTime)) :=
    List.mem_map_of_mem _ hr
  have hmem2 := hperm.mem_iff.mp hmem
  rw [List.mem_map] at hmem2
  obtain ⟨e, he, heq⟩ := hmem2
  exact ⟨e, he, congrArg Prod.fst heq.symm, congrArg Prod.snd heq.symm⟩

/-- Witness for C9: the two-entry one-hour contiguous curve `rawCurve2` is
contiguous, and the stored records' closed intervals are pairwise disjoint. -/
theorem c9_end_shift_disjoint_witness :
    contiguousRaw rawCurve2 ∧
    List.Pairwise (fun r1 r2 : RateRecord =>
      r1.endTime < r2.start ∨ r2.endTime < r1.start) (ratesOf exampleCfg rawCurve2) := by
  have hc : contiguousRaw rawCurve2 := by
    constructor
    · intro e he
      fin_cases he <;> norm_num
    · simp [rawCurve2]
  exact ⟨hc, ((c9_end_shift_disjoint exampleCfg rawCurve2).2 hc).1⟩

end EPL
